import Mathlib

/-!
Shallow embedding of src/src/hmmloglikelihood.cpp (function loglikelihood_cpp)
from the paneljudge repository, with theorems about it.

Modelling choices:
* C doubles are modelled as real numbers; the functions exp and log of
  math.h are modelled by Real.exp and a bottom-extended Real.log.
* The return value is an extended real (EReal): the C expression log(0.)
  evaluates to minus infinity, modelled as the bottom element.  The helper
  clog models the C log on nonnegative arguments: clog 0 is bottom and
  clog x = Real.log x otherwise (C produces NaN on negative arguments;
  no theorem below evaluates clog at a negative argument).
* Rcpp matrices and vectors are modelled as total functions from indices;
  the C++ code reads them only at the indices its loops visit.
* Real division by zero follows the Lean convention (x / 0 = 0).  This is
  the one point where the model idealises the program: when a non-final
  site has marginal likelihood exactly 0, IEEE doubles evaluate the filter
  normalisation of line 138 as (0,0)/0 = (NaN,NaN), the NaN propagates
  through the remaining sites, and the program returns -inf + NaN = NaN;
  the model instead returns minus infinity there, because its accumulator
  has already absorbed a bottom term and bottom absorbs every later
  addition in EReal.  The minus-infinity value is the one the comments of
  the source and the spec prescribe for a zero-probability site; the
  theorem c5_zero_interior_site_bug below evaluates the model at a
  concrete such input, and the NaN behaviour of the program on that input
  is recorded alongside it as a divergence of the code from its intent.
-/

namespace PanelJudge

/-- Inputs of loglikelihood_cpp: parameters k and r, the observation matrix
Ys split into its two columns, the frequency matrix f, the vector gendist,
the constants epsilon and rho, and the dimensions ndata (rows of Ys) and
maxnstates (columns of f). -/
structure HmmArgs where
  k : ℝ
  r : ℝ
  Ys0 : ℕ → ℤ
  Ys1 : ℕ → ℤ
  f : ℕ → ℕ → ℝ
  gendist : ℕ → ℝ
  epsilon : ℝ
  rho : ℝ
  ndata : ℕ
  maxnstates : ℕ

/-- The threshold 1e-20 of the while loop that counts active alleles. -/
noncomputable def lowfreq : ℝ := 1 / 10 ^ 20

/-- The while loop of lines 84-87: with m columns of fuel remaining,
starting at column s, count consecutive frequencies strictly above the
threshold. -/
noncomputable def nstatesFrom (frow : ℕ → ℝ) : ℕ → ℕ → ℕ
  | 0, _ => 0
  | m + 1, s => if frow s > lowfreq then nstatesFrom frow m (s + 1) + 1 else 0

/-- Number of different alleles at site t (lines 84-87). -/
noncomputable def nstates (A : HmmArgs) (t : ℕ) : ℕ :=
  nstatesFrom (A.f t) A.maxnstates 0

/-- The conditional factor applied to incr at lines 96-105 and 115-124:
probability of observing y given true allele g among n states. -/
noncomputable def obsP (n : ℕ) (eps : ℝ) (y : ℤ) (g : ℕ) : ℝ :=
  if y = (g : ℤ) then 1 - ((n : ℝ) - 1) * eps else eps

/-- Lines 90-108: accumulation of lk0 over the double loop. -/
noncomputable def lk0 (A : HmmArgs) (t : ℕ) : ℝ :=
  (List.range (nstates A t)).foldl
    (fun acc g =>
      (List.range (nstates A t)).foldl
        (fun acc2 gprime =>
          acc2 + A.f t g * A.f t gprime
            * obsP (nstates A t) A.epsilon (A.Ys0 t) g
            * obsP (nstates A t) A.epsilon (A.Ys1 t) gprime) acc) 0

/-- Lines 110-126: accumulation of lk1 over the single loop. -/
noncomputable def lk1 (A : HmmArgs) (t : ℕ) : ℝ :=
  (List.range (nstates A t)).foldl
    (fun acc g =>
      acc + A.f t g
        * obsP (nstates A t) A.epsilon (A.Ys0 t) g
        * obsP (nstates A t) A.epsilon (A.Ys1 t) g) 0

/-- The C log on nonnegative arguments, valued in the extended reals:
log(0.) is minus infinity. -/
noncomputable def clog (x : ℝ) : EReal :=
  if x = 0 then ⊥ else ((Real.log x : ℝ) : EReal)

/-- One iteration of the for loop (lines 82-151).  The state carries
current_predictive(0), current_predictive(1) and the running
loglikelihood_value. -/
noncomputable def loopStep (A : HmmArgs) (st : ℝ × ℝ × EReal) (t : ℕ) : ℝ × ℝ × EReal :=
  let u0 := st.1 * lk0 A t
  let u1 := st.2.1 * lk1 A t
  let l := u0 + u1
  let acc := st.2.2 + clog l
  if t < A.ndata - 1 then
    let e := Real.exp (-(A.k * A.rho * A.gendist t))
    let a01 := A.r * (1 - e)
    let a11 := A.r + (1 - A.r) * e
    let p1 := u0 / l * a01 + u1 / l * a11
    (1 - p1, p1, acc)
  else
    (st.1, st.2.1, acc)

/-- State after the first t iterations of the loop, starting from the
initial predictive (1 - r, r) of lines 71-73 and zero log-likelihood. -/
noncomputable def stateAfter (A : HmmArgs) (t : ℕ) : ℝ × ℝ × EReal :=
  (List.range t).foldl (loopStep A) (1 - A.r, A.r, 0)

/-- The function loglikelihood_cpp of lines 59-154. -/
noncomputable def loglikelihood_cpp (A : HmmArgs) : EReal :=
  if A.r < 0 ∨ A.r > 1 ∨ A.k < 0 then ⊥
  else (stateAfter A A.ndata).2.2

/-- current_predictive at the start of iteration t. -/
noncomputable def predictive (A : HmmArgs) (t : ℕ) : ℝ × ℝ :=
  ((stateAfter A t).1, (stateAfter A t).2.1)

/-- The site marginal likelihood l_idata computed at iteration t
(lines 129-132). -/
noncomputable def Lmarg (A : HmmArgs) (t : ℕ) : ℝ :=
  (stateAfter A t).1 * lk0 A t + (stateAfter A t).2.1 * lk1 A t

/-- The normalised filtering distribution of line 138 at iteration t. -/
noncomputable def filterNorm (A : HmmArgs) (t : ℕ) : ℝ × ℝ :=
  ((stateAfter A t).1 * lk0 A t / Lmarg A t,
   (stateAfter A t).2.1 * lk1 A t / Lmarg A t)

/-- Ys with its two columns exchanged. -/
def swapYs (A : HmmArgs) : HmmArgs :=
  { A with Ys0 := A.Ys1, Ys1 := A.Ys0 }

/-- A two-site example with two equifrequent alleles and matching
observations. -/
noncomputable def exTwoSites : HmmArgs where
  k := 0
  r := 1 / 2
  Ys0 := fun _ => 0
  Ys1 := fun _ => 0
  f := fun _ _ => 1 / 2
  gendist := fun _ => 0
  epsilon := 0
  rho := 1
  ndata := 2
  maxnstates := 2

/-- A two-site example whose sites have a single active allele, zero error
rate, and observations that miss the active allele, so every site marginal
likelihood is exactly zero. -/
noncomputable def exZeroSite : HmmArgs where
  k := 0
  r := 1 / 2
  Ys0 := fun _ => 1
  Ys1 := fun _ => 1
  f := fun _ g => if g = 0 then 1 else 0
  gendist := fun _ => 0
  epsilon := 0
  rho := 1
  ndata := 2
  maxnstates := 2

/-- A one-site example whose observation in column 0 lies outside the
active allele range. -/
noncomputable def exOutOfRange : HmmArgs where
  k := 0
  r := 1 / 2
  Ys0 := fun _ => 5
  Ys1 := fun _ => 0
  f := fun _ g => if g = 0 then 1 else 0
  gendist := fun _ => 0
  epsilon := 1 / 100
  rho := 1
  ndata := 1
  maxnstates := 2

/-- exTwoSites with an infeasible rate r. -/
noncomputable def exBadR : HmmArgs := { exTwoSites with r := -(1 / 10) }

/-- exTwoSites with an empty site sequence. -/
noncomputable def exEmpty : HmmArgs := { exTwoSites with ndata := 0 }

lemma stateAfter_zero (A : HmmArgs) : stateAfter A 0 = (1 - A.r, A.r, 0) := by
  simp [stateAfter]

lemma stateAfter_succ (A : HmmArgs) (t : ℕ) :
    stateAfter A (t + 1) = loopStep A (stateAfter A t) t := by
  simp [stateAfter, List.range_succ]

lemma foldl_add_eq_sum (h : ℕ → ℝ) :
    ∀ (n : ℕ) (a : ℝ),
      (List.range n).foldl (fun x g => x + h g) a = a + ∑ g ∈ Finset.range n, h g := by
  intro n
  induction n with
  | zero => intro a; simp
  | succ m ih =>
      intro a
      rw [List.range_succ, List.foldl_append]
      simp only [List.foldl_cons, List.foldl_nil]
      rw [ih, Finset.sum_range_succ]
      ring

lemma foldl_foldl_add_eq_sum (T : ℕ → ℕ → ℝ) (m : ℕ) :
    ∀ (n : ℕ) (a : ℝ),
      (List.range n).foldl
        (fun acc g => (List.range m).foldl (fun acc2 gp => acc2 + T g gp) acc) a
      = a + ∑ g ∈ Finset.range n, ∑ gp ∈ Finset.range m, T g gp := by
  intro n
  induction n with
  | zero => intro a; simp
  | succ q ih =>
      intro a
      rw [List.range_succ, List.foldl_append]
      simp only [List.foldl_cons, List.foldl_nil]
      rw [ih, foldl_add_eq_sum, Finset.sum_range_succ]
      ring

lemma lk1_eq_sum (A : HmmArgs) (t : ℕ) :
    lk1 A t = ∑ g ∈ Finset.range (nstates A t),
      A.f t g * obsP (nstates A t) A.epsilon (A.Ys0 t) g
              * obsP (nstates A t) A.epsilon (A.Ys1 t) g := by
  simpa [lk1] using
    foldl_add_eq_sum
      (fun g => A.f t g * obsP (nstates A t) A.epsilon (A.Ys0 t) g
              * obsP (nstates A t) A.epsilon (A.Ys1 t) g) (nstates A t) 0

lemma lk0_eq_sum (A : HmmArgs) (t : ℕ) :
    lk0 A t = ∑ g ∈ Finset.range (nstates A t), ∑ gp ∈ Finset.range (nstates A t),
      A.f t g * A.f t gp * obsP (nstates A t) A.epsilon (A.Ys0 t) g
              * obsP (nstates A t) A.epsilon (A.Ys1 t) gp := by
  simpa [lk0] using
    foldl_foldl_add_eq_sum
      (fun g gp => A.f t g * A.f t gp * obsP (nstates A t) A.epsilon (A.Ys0 t) g
              * obsP (nstates A t) A.epsilon (A.Ys1 t) gp)
      (nstates A t) (nstates A t) 0

lemma nstatesFrom_spec (frow : ℕ → ℝ) (m : ℕ) :
    ∀ s, (∀ i, i < nstatesFrom frow m s → frow (s + i) > lowfreq) ∧
      nstatesFrom frow m s ≤ m ∧
      (nstatesFrom frow m s < m → ¬ frow (s + nstatesFrom frow m s) > lowfreq) := by
  induction m with
  | zero =>
      intro s
      exact ⟨fun i hi => absurd hi (by simp [nstatesFrom]),
        by simp [nstatesFrom], fun h => absurd h (by simp [nstatesFrom])⟩
  | succ p ih =>
      intro s
      simp only [nstatesFrom]
      by_cases h : frow s > lowfreq
      · rw [if_pos h]
        obtain ⟨h1, h2, h3⟩ := ih (s + 1)
        refine ⟨?_, Nat.succ_le_succ h2, ?_⟩
        · intro i hi
          cases i with
          | zero => simpa using h
          | succ j =>
              have hj := h1 j (by omega)
              have e : s + 1 + j = s + (j + 1) := by omega
              rwa [e] at hj
        · intro hlt
          have hs := h3 (by omega)
          have e : s + 1 + nstatesFrom frow p (s + 1)
              = s + (nstatesFrom frow p (s + 1) + 1) := by omega
          rwa [e] at hs
      · rw [if_neg h]
        exact ⟨fun i hi => absurd hi (Nat.not_lt_zero i), Nat.zero_le _,
          fun _ => by simpa using h⟩

lemma acc_stateAfter (A : HmmArgs) (t : ℕ) :
    (stateAfter A t).2.2 = ∑ s ∈ Finset.range t, clog (Lmarg A s) := by
  induction t with
  | zero => simp [stateAfter]
  | succ p ih =>
      rw [stateAfter_succ, Finset.sum_range_succ, ← ih]
      simp only [loopStep, Lmarg]
      split_ifs <;> rfl

lemma not_infeasible {A : HmmArgs} (h0 : 0 ≤ A.r) (h1 : A.r ≤ 1) (hk : 0 ≤ A.k) :
    ¬ (A.r < 0 ∨ A.r > 1 ∨ A.k < 0) := by
  push_neg
  exact ⟨h0, h1, hk⟩

/-- C1: at every site t, with nstates the count of leading frequencies
strictly above the threshold 1e-20, the emission evaluator produces
lk1 = sum over g below nstates of f(t,g) m(y0,g) m(y1,g) and
lk0 = double sum over g, gprime below nstates of
f(t,g) f(t,gprime) m(y0,g) m(y1,gprime), where the factor m(y,g), here
obsP, equals 1 - (nstates - 1) epsilon when y = g and epsilon otherwise. -/
theorem c1_emission_evaluator (A : HmmArgs) (t : ℕ) :
    lk1 A t = (∑ g ∈ Finset.range (nstates A t),
        A.f t g * obsP (nstates A t) A.epsilon (A.Ys0 t) g
                * obsP (nstates A t) A.epsilon (A.Ys1 t) g)
    ∧ lk0 A t = (∑ g ∈ Finset.range (nstates A t), ∑ gp ∈ Finset.range (nstates A t),
        A.f t g * A.f t gp * obsP (nstates A t) A.epsilon (A.Ys0 t) g
                * obsP (nstates A t) A.epsilon (A.Ys1 t) gp)
    ∧ (∀ i, i < nstates A t → A.f t i > lowfreq)
    ∧ nstates A t ≤ A.maxnstates
    ∧ (nstates A t < A.maxnstates → ¬ A.f t (nstates A t) > lowfreq) := by
  obtain ⟨h1, h2, h3⟩ := nstatesFrom_spec (A.f t) A.maxnstates 0
  refine ⟨lk1_eq_sum A t, lk0_eq_sum A t, ?_, h2, ?_⟩
  · intro i hi
    simpa using h1 i hi
  · intro h
    simpa using h3 h

/-- C3: for feasible parameters, the predictive distribution used at the
first site is exactly (1 - r, r); no transition step is applied before
site 0. -/
theorem c3_initial_predictive (A : HmmArgs)
    (h0 : 0 ≤ A.r) (h1 : A.r ≤ 1) (hk : 0 ≤ A.k) :
    predictive A 0 = (1 - A.r, A.r) := by
  simp [predictive, stateAfter]

theorem c3_initial_predictive_witness :
    (0 ≤ exTwoSites.r ∧ exTwoSites.r ≤ 1 ∧ 0 ≤ exTwoSites.k)
    ∧ predictive exTwoSites 0 = (1 - exTwoSites.r, exTwoSites.r) :=
  ⟨⟨by norm_num [exTwoSites], by norm_num [exTwoSites], by norm_num [exTwoSites]⟩,
   c3_initial_predictive exTwoSites (by norm_num [exTwoSites])
     (by norm_num [exTwoSites]) (by norm_num [exTwoSites])⟩

/-- C4: when r < 0 or r > 1 or k < 0 the function returns minus infinity
at once, whatever the data Ys, f, gendist, epsilon, rho are. -/
theorem c4_infeasible_returns_bot (A : HmmArgs)
    (h : A.r < 0 ∨ A.r > 1 ∨ A.k < 0) :
    loglikelihood_cpp A = ⊥ := by
  rw [loglikelihood_cpp, if_pos h]

theorem c4_infeasible_returns_bot_witness :
    (exBadR.r < 0 ∨ exBadR.r > 1 ∨ exBadR.k < 0) ∧ loglikelihood_cpp exBadR = ⊥ :=
  ⟨Or.inl (by norm_num [exBadR, exTwoSites]),
   c4_infeasible_returns_bot exBadR (Or.inl (by norm_num [exBadR, exTwoSites]))⟩

/-- C10: with feasible parameters and an empty site sequence the function
returns exactly zero, processing no site. -/
theorem c10_empty_returns_zero (A : HmmArgs)
    (h0 : 0 ≤ A.r) (h1 : A.r ≤ 1) (hk : 0 ≤ A.k) (hn : A.ndata = 0) :
    loglikelihood_cpp A = 0 := by
  rw [loglikelihood_cpp, if_neg (not_infeasible h0 h1 hk), hn]
  simp [stateAfter]

theorem c10_empty_returns_zero_witness :
    (0 ≤ exEmpty.r ∧ exEmpty.r ≤ 1 ∧ 0 ≤ exEmpty.k ∧ exEmpty.ndata = 0)
    ∧ loglikelihood_cpp exEmpty = 0 :=
  ⟨⟨by norm_num [exEmpty, exTwoSites], by norm_num [exEmpty, exTwoSites],
    by norm_num [exEmpty, exTwoSites], rfl⟩,
   c10_empty_returns_zero exEmpty (by norm_num [exEmpty, exTwoSites])
     (by norm_num [exEmpty, exTwoSites]) (by norm_num [exEmpty, exTwoSites]) rfl⟩

lemma nstates_exZeroSite (t : ℕ) : nstates exZeroSite t = 1 := by
  norm_num [nstates, nstatesFrom, lowfreq, exZeroSite]

lemma lk1_exZeroSite : lk1 exZeroSite 0 = 0 := by
  simp only [lk1, nstates_exZeroSite]
  norm_num [exZeroSite, obsP, List.range_succ]

lemma lk0_exZeroSite : lk0 exZeroSite 0 = 0 := by
  simp only [lk0, nstates_exZeroSite]
  norm_num [exZeroSite, obsP, List.range_succ]

lemma Lmarg_exZeroSite : Lmarg exZeroSite 0 = 0 := by
  rw [Lmarg, lk0_exZeroSite, lk1_exZeroSite]
  ring

/-- C2: for every non-final site t, the predictive distribution for site
t + 1 is obtained from the normalised filtering distribution at t as
p1next = filter0 a01 + filter1 a11 with p0next = 1 - p1next its
complement, where decay = exp(-k rho gendist(t)), a01 = r (1 - decay)
and a11 = r + (1 - r) decay. -/
theorem c2_prediction_step (A : HmmArgs) (t : ℕ) (ht : t < A.ndata - 1) :
    predictive A (t + 1) =
      (1 - ((filterNorm A t).1
              * (A.r * (1 - Real.exp (-(A.k * A.rho * A.gendist t))))
          + (filterNorm A t).2
              * (A.r + (1 - A.r) * Real.exp (-(A.k * A.rho * A.gendist t)))),
       (filterNorm A t).1
              * (A.r * (1 - Real.exp (-(A.k * A.rho * A.gendist t))))
          + (filterNorm A t).2
              * (A.r + (1 - A.r) * Real.exp (-(A.k * A.rho * A.gendist t)))) := by
  simp only [predictive, stateAfter_succ, loopStep]
  rw [if_pos ht]
  simp only [filterNorm, Lmarg]

theorem c2_prediction_step_witness :
    0 < exTwoSites.ndata - 1
    ∧ predictive exTwoSites 1 =
      (1 - ((filterNorm exTwoSites 0).1
              * (exTwoSites.r
                * (1 - Real.exp (-(exTwoSites.k * exTwoSites.rho * exTwoSites.gendist 0))))
          + (filterNorm exTwoSites 0).2
              * (exTwoSites.r + (1 - exTwoSites.r)
                * Real.exp (-(exTwoSites.k * exTwoSites.rho * exTwoSites.gendist 0)))),
       (filterNorm exTwoSites 0).1
              * (exTwoSites.r
                * (1 - Real.exp (-(exTwoSites.k * exTwoSites.rho * exTwoSites.gendist 0))))
          + (filterNorm exTwoSites 0).2
              * (exTwoSites.r + (1 - exTwoSites.r)
                * Real.exp (-(exTwoSites.k * exTwoSites.rho * exTwoSites.gendist 0)))) :=
  ⟨by norm_num [exTwoSites],
   c2_prediction_step exTwoSites 0 (by norm_num [exTwoSites])⟩

/-- C5: at exZeroSite the parameters are feasible, site 0 is an interior
site (ndata = 2) whose marginal likelihood is exactly zero, and the
idealised real-number evaluation of the program returns minus infinity,
the value the source comments and the spec prescribe for a
zero-probability site.  The program itself does not compute this value at
this input: in IEEE doubles line 138 divides the zero filter by the zero
likelihood, producing (NaN,NaN), the NaN survives the remaining
iterations, and -inf + NaN = NaN is returned, so the code diverges from
the claimed (and intended) minus-infinity behaviour on interior
zero-likelihood sites. -/
theorem c5_zero_interior_site_bug :
    (0 ≤ exZeroSite.r ∧ exZeroSite.r ≤ 1 ∧ 0 ≤ exZeroSite.k)
    ∧ 0 < exZeroSite.ndata - 1
    ∧ Lmarg exZeroSite 0 = 0
    ∧ loglikelihood_cpp exZeroSite = ⊥ := by
  refine ⟨⟨by norm_num [exZeroSite], by norm_num [exZeroSite],
    by norm_num [exZeroSite]⟩, by norm_num [exZeroSite], Lmarg_exZeroSite, ?_⟩
  rw [loglikelihood_cpp, if_neg (not_infeasible (by norm_num [exZeroSite])
    (by norm_num [exZeroSite]) (by norm_num [exZeroSite])), acc_stateAfter]
  have hmem : 0 ∈ Finset.range exZeroSite.ndata := by norm_num [exZeroSite]
  rw [← Finset.add_sum_erase _ _ hmem, Lmarg_exZeroSite]
  have hc : clog (0 : ℝ) = ⊥ := by simp [clog]
  rw [hc]
  simp

/-- C9: on the final site the filter normalisation and the prediction
step are both skipped: the last loop iteration keeps the predictive
components unchanged and only adds clog of the final site marginal
likelihood to the accumulator (so no division by that likelihood occurs,
zero or not), and the returned value is the accumulated sum of clog of
the site marginal likelihoods over all sites. -/
theorem c9_final_site (A : HmmArgs)
    (h0 : 0 ≤ A.r) (h1 : A.r ≤ 1) (hk : 0 ≤ A.k) (hn : 1 ≤ A.ndata) :
    stateAfter A A.ndata
      = ((stateAfter A (A.ndata - 1)).1, (stateAfter A (A.ndata - 1)).2.1,
         (stateAfter A (A.ndata - 1)).2.2 + clog (Lmarg A (A.ndata - 1)))
    ∧ loglikelihood_cpp A = ∑ t ∈ Finset.range A.ndata, clog (Lmarg A t) := by
  constructor
  · obtain ⟨m, hm⟩ : ∃ m, A.ndata = m + 1 := ⟨A.ndata - 1, by omega⟩
    rw [hm]
    simp only [Nat.add_sub_cancel]
    rw [stateAfter_succ]
    simp only [loopStep, Lmarg]
    rw [if_neg (by omega)]
  · rw [loglikelihood_cpp, if_neg (not_infeasible h0 h1 hk), acc_stateAfter]

theorem c9_final_site_witness :
    (0 ≤ exTwoSites.r ∧ exTwoSites.r ≤ 1 ∧ 0 ≤ exTwoSites.k ∧ 1 ≤ exTwoSites.ndata)
    ∧ (stateAfter exTwoSites exTwoSites.ndata
      = ((stateAfter exTwoSites (exTwoSites.ndata - 1)).1,
         (stateAfter exTwoSites (exTwoSites.ndata - 1)).2.1,
         (stateAfter exTwoSites (exTwoSites.ndata - 1)).2.2
           + clog (Lmarg exTwoSites (exTwoSites.ndata - 1)))
    ∧ loglikelihood_cpp exTwoSites
        = ∑ t ∈ Finset.range exTwoSites.ndata, clog (Lmarg exTwoSites t)) :=
  ⟨⟨by norm_num [exTwoSites], by norm_num [exTwoSites], by norm_num [exTwoSites],
    by norm_num [exTwoSites]⟩,
   c9_final_site exTwoSites (by norm_num [exTwoSites]) (by norm_num [exTwoSites])
     (by norm_num [exTwoSites]) (by norm_num [exTwoSites])⟩

lemma nstates_exOutOfRange (t : ℕ) : nstates exOutOfRange t = 1 := by
  norm_num [nstates, nstatesFrom, lowfreq, exOutOfRange]

/-- C7: if an observed value y lies outside [0, nstates) at site t, then
the observation factor obsP equals epsilon for every candidate allele, so
every term of the emission sums for that observation uses the epsilon
mismatch probability and none uses the exact-match probability; this holds
for either column of Ys, in lk1 and in lk0 alike. -/
theorem c7_out_of_range_epsilon (A : HmmArgs) (t : ℕ) (y : ℤ)
    (h : y < 0 ∨ (nstates A t : ℤ) ≤ y) :
    (∀ g, g < nstates A t → obsP (nstates A t) A.epsilon y g = A.epsilon)
    ∧ (y = A.Ys0 t → lk1 A t = ∑ g ∈ Finset.range (nstates A t),
        A.f t g * A.epsilon * obsP (nstates A t) A.epsilon (A.Ys1 t) g)
    ∧ (y = A.Ys1 t → lk1 A t = ∑ g ∈ Finset.range (nstates A t),
        A.f t g * obsP (nstates A t) A.epsilon (A.Ys0 t) g * A.epsilon)
    ∧ (y = A.Ys0 t → lk0 A t = ∑ g ∈ Finset.range (nstates A t),
        ∑ gp ∈ Finset.range (nstates A t),
        A.f t g * A.f t gp * A.epsilon * obsP (nstates A t) A.epsilon (A.Ys1 t) gp)
    ∧ (y = A.Ys1 t → lk0 A t = ∑ g ∈ Finset.range (nstates A t),
        ∑ gp ∈ Finset.range (nstates A t),
        A.f t g * A.f t gp * obsP (nstates A t) A.epsilon (A.Ys0 t) g * A.epsilon) := by
  have hobs : ∀ g, g < nstates A t → obsP (nstates A t) A.epsilon y g = A.epsilon := by
    intro g hg
    rw [obsP, if_neg]
    intro he
    rcases h with h | h <;> omega
  refine ⟨hobs, ?_, ?_, ?_, ?_⟩
  · intro hy
    rw [lk1_eq_sum]
    refine Finset.sum_congr rfl fun g hg => ?_
    rw [← hy, hobs g (Finset.mem_range.mp hg)]
  · intro hy
    rw [lk1_eq_sum]
    refine Finset.sum_congr rfl fun g hg => ?_
    rw [← hy, hobs g (Finset.mem_range.mp hg)]
  · intro hy
    rw [lk0_eq_sum]
    refine Finset.sum_congr rfl fun g hg => Finset.sum_congr rfl fun gp hgp => ?_
    rw [← hy, hobs g (Finset.mem_range.mp hg)]
  · intro hy
    rw [lk0_eq_sum]
    refine Finset.sum_congr rfl fun g hg => Finset.sum_congr rfl fun gp hgp => ?_
    rw [← hy, hobs gp (Finset.mem_range.mp hgp)]

theorem c7_out_of_range_epsilon_witness :
    ((5 : ℤ) < 0 ∨ (nstates exOutOfRange 0 : ℤ) ≤ 5)
    ∧ ((∀ g, g < nstates exOutOfRange 0 →
          obsP (nstates exOutOfRange 0) exOutOfRange.epsilon 5 g = exOutOfRange.epsilon)
    ∧ ((5 : ℤ) = exOutOfRange.Ys0 0 →
        lk1 exOutOfRange 0 = ∑ g ∈ Finset.range (nstates exOutOfRange 0),
        exOutOfRange.f 0 g * exOutOfRange.epsilon
          * obsP (nstates exOutOfRange 0) exOutOfRange.epsilon (exOutOfRange.Ys1 0) g)
    ∧ ((5 : ℤ) = exOutOfRange.Ys1 0 →
        lk1 exOutOfRange 0 = ∑ g ∈ Finset.range (nstates exOutOfRange 0),
        exOutOfRange.f 0 g
          * obsP (nstates exOutOfRange 0) exOutOfRange.epsilon (exOutOfRange.Ys0 0) g
          * exOutOfRange.epsilon)
    ∧ ((5 : ℤ) = exOutOfRange.Ys0 0 →
        lk0 exOutOfRange 0 = ∑ g ∈ Finset.range (nstates exOutOfRange 0),
        ∑ gp ∈ Finset.range (nstates exOutOfRange 0),
        exOutOfRange.f 0 g * exOutOfRange.f 0 gp * exOutOfRange.epsilon
          * obsP (nstates exOutOfRange 0) exOutOfRange.epsilon (exOutOfRange.Ys1 0) gp)
    ∧ ((5 : ℤ) = exOutOfRange.Ys1 0 →
        lk0 exOutOfRange 0 = ∑ g ∈ Finset.range (nstates exOutOfRange 0),
        ∑ gp ∈ Finset.range (nstates exOutOfRange 0),
        exOutOfRange.f 0 g * exOutOfRange.f 0 gp
          * obsP (nstates exOutOfRange 0) exOutOfRange.epsilon (exOutOfRange.Ys0 0) g
          * exOutOfRange.epsilon)) :=
  ⟨Or.inr (by rw [nstates_exOutOfRange]; norm_num),
   c7_out_of_range_epsilon exOutOfRange 0 5
     (Or.inr (by rw [nstates_exOutOfRange]; norm_num))⟩

lemma swapYs_k (A : HmmArgs) : (swapYs A).k = A.k := rfl

lemma swapYs_r (A : HmmArgs) : (swapYs A).r = A.r := rfl

lemma swapYs_Ys0 (A : HmmArgs) : (swapYs A).Ys0 = A.Ys1 := rfl

lemma swapYs_Ys1 (A : HmmArgs) : (swapYs A).Ys1 = A.Ys0 := rfl

lemma swapYs_f (A : HmmArgs) : (swapYs A).f = A.f := rfl

lemma swapYs_gendist (A : HmmArgs) : (swapYs A).gendist = A.gendist := rfl

lemma swapYs_epsilon (A : HmmArgs) : (swapYs A).epsilon = A.epsilon := rfl

lemma swapYs_rho (A : HmmArgs) : (swapYs A).rho = A.rho := rfl

lemma swapYs_ndata (A : HmmArgs) : (swapYs A).ndata = A.ndata := rfl

lemma nstates_swap (A : HmmArgs) (t : ℕ) : nstates (swapYs A) t = nstates A t := rfl

lemma lk1_swap (A : HmmArgs) (t : ℕ) : lk1 (swapYs A) t = lk1 A t := by
  rw [lk1_eq_sum, lk1_eq_sum]
  simp only [nstates_swap, swapYs_f, swapYs_Ys0, swapYs_Ys1, swapYs_epsilon]
  refine Finset.sum_congr rfl fun g _ => ?_
  ring

lemma lk0_swap (A : HmmArgs) (t : ℕ) : lk0 (swapYs A) t = lk0 A t := by
  rw [lk0_eq_sum, lk0_eq_sum]
  simp only [nstates_swap, swapYs_f, swapYs_Ys0, swapYs_Ys1, swapYs_epsilon]
  rw [Finset.sum_comm]
  refine Finset.sum_congr rfl fun g _ => Finset.sum_congr rfl fun gp _ => ?_
  ring

lemma loopStep_swap (A : HmmArgs) (st : ℝ × ℝ × EReal) (t : ℕ) :
    loopStep (swapYs A) st t = loopStep A st t := by
  simp only [loopStep, lk0_swap, lk1_swap, swapYs_k, swapYs_r, swapYs_rho,
    swapYs_gendist, swapYs_ndata]

lemma stateAfter_swap (A : HmmArgs) (t : ℕ) :
    stateAfter (swapYs A) t = stateAfter A t := by
  induction t with
  | zero => rfl
  | succ p ih => rw [stateAfter_succ, stateAfter_succ, ih, loopStep_swap]

/-- C8: exchanging the two columns of Ys (the two individuals) at every
site leaves the returned log-likelihood unchanged. -/
theorem c8_swap_symmetry (A : HmmArgs) :
    loglikelihood_cpp (swapYs A) = loglikelihood_cpp A := by
  simp only [loglikelihood_cpp, stateAfter_swap, swapYs_r, swapYs_k, swapYs_ndata]

lemma loopStep_true (A : HmmArgs) (st : ℝ × ℝ × EReal) (t : ℕ) (ht : t < A.ndata - 1) :
    loopStep A st t =
      (1 - (st.1 * lk0 A t / (st.1 * lk0 A t + st.2.1 * lk1 A t)
              * (A.r * (1 - Real.exp (-(A.k * A.rho * A.gendist t))))
            + st.2.1 * lk1 A t / (st.1 * lk0 A t + st.2.1 * lk1 A t)
              * (A.r + (1 - A.r) * Real.exp (-(A.k * A.rho * A.gendist t)))),
       st.1 * lk0 A t / (st.1 * lk0 A t + st.2.1 * lk1 A t)
              * (A.r * (1 - Real.exp (-(A.k * A.rho * A.gendist t))))
            + st.2.1 * lk1 A t / (st.1 * lk0 A t + st.2.1 * lk1 A t)
              * (A.r + (1 - A.r) * Real.exp (-(A.k * A.rho * A.gendist t))),
       st.2.2 + clog (st.1 * lk0 A t + st.2.1 * lk1 A t)) := by
  simp only [loopStep]
  rw [if_pos ht]

lemma loopStep_false (A : HmmArgs) (st : ℝ × ℝ × EReal) (t : ℕ)
    (ht : ¬ t < A.ndata - 1) :
    loopStep A st t
      = (st.1, st.2.1, st.2.2 + clog (st.1 * lk0 A t + st.2.1 * lk1 A t)) := by
  simp only [loopStep]
  rw [if_neg ht]

lemma obsP_nonneg {n : ℕ} {eps : ℝ} (he : 0 ≤ eps)
    (hne : ((n : ℝ) - 1) * eps ≤ 1) (y : ℤ) (g : ℕ) : 0 ≤ obsP n eps y g := by
  rw [obsP]
  split
  · linarith
  · exact he

lemma lk1_nonneg (A : HmmArgs) (t : ℕ) (hf : ∀ i, 0 ≤ A.f t i)
    (he : 0 ≤ A.epsilon) (hne : ((nstates A t : ℝ) - 1) * A.epsilon ≤ 1) :
    0 ≤ lk1 A t := by
  rw [lk1_eq_sum]
  refine Finset.sum_nonneg fun g _ => ?_
  exact mul_nonneg (mul_nonneg (hf g) (obsP_nonneg he hne _ _)) (obsP_nonneg he hne _ _)

lemma lk0_nonneg (A : HmmArgs) (t : ℕ) (hf : ∀ i, 0 ≤ A.f t i)
    (he : 0 ≤ A.epsilon) (hne : ((nstates A t : ℝ) - 1) * A.epsilon ≤ 1) :
    0 ≤ lk0 A t := by
  rw [lk0_eq_sum]
  refine Finset.sum_nonneg fun g _ => Finset.sum_nonneg fun gp _ => ?_
  exact mul_nonneg (mul_nonneg (mul_nonneg (hf g) (hf gp))
    (obsP_nonneg he hne _ _)) (obsP_nonneg he hne _ _)

lemma filter_predict_bounds (u0 u1 r e : ℝ)
    (hu0 : 0 ≤ u0) (hu1 : 0 ≤ u1) (hne : u0 + u1 ≠ 0)
    (hr0 : 0 ≤ r) (hr1 : r ≤ 1) (he0 : 0 < e) (he1 : e ≤ 1) :
    0 ≤ u0 / (u0 + u1) * (r * (1 - e)) + u1 / (u0 + u1) * (r + (1 - r) * e)
    ∧ u0 / (u0 + u1) * (r * (1 - e)) + u1 / (u0 + u1) * (r + (1 - r) * e) ≤ 1 := by
  have hl : 0 < u0 + u1 := (add_nonneg hu0 hu1).lt_of_ne (Ne.symm hne)
  have hf0 : 0 ≤ u0 / (u0 + u1) := div_nonneg hu0 hl.le
  have hf1 : 0 ≤ u1 / (u0 + u1) := div_nonneg hu1 hl.le
  have hfs : u0 / (u0 + u1) + u1 / (u0 + u1) = 1 := by
    rw [div_add_div_same]
    exact div_self hne
  have ha01 : 0 ≤ r * (1 - e) := mul_nonneg hr0 (by linarith)
  have ha01le : r * (1 - e) ≤ 1 := by nlinarith
  have ha11 : 0 ≤ r + (1 - r) * e := by nlinarith
  have ha11le : r + (1 - r) * e ≤ 1 := by nlinarith
  constructor
  · exact add_nonneg (mul_nonneg hf0 ha01) (mul_nonneg hf1 ha11)
  · calc u0 / (u0 + u1) * (r * (1 - e)) + u1 / (u0 + u1) * (r + (1 - r) * e)
        ≤ u0 / (u0 + u1) + u1 / (u0 + u1) :=
          add_le_add (mul_le_of_le_one_right hf0 ha01le)
            (mul_le_of_le_one_right hf1 ha11le)
      _ = 1 := hfs

lemma predictive_invariant (A : HmmArgs)
    (hr0 : 0 ≤ A.r) (hr1 : A.r ≤ 1) (hk : 0 ≤ A.k) (hrho : 0 ≤ A.rho)
    (hgd : ∀ s, 0 ≤ A.gendist s) (hf : ∀ s i, 0 ≤ A.f s i)
    (he : 0 ≤ A.epsilon)
    (hne : ∀ s, ((nstates A s : ℝ) - 1) * A.epsilon ≤ 1) :
    ∀ t, (∀ s, s < t → Lmarg A s ≠ 0) →
      0 ≤ (stateAfter A t).1 ∧ 0 ≤ (stateAfter A t).2.1
        ∧ (stateAfter A t).1 + (stateAfter A t).2.1 = 1 := by
  intro t
  induction t with
  | zero =>
      intro _
      rw [stateAfter_zero]
      refine ⟨?_, ?_, ?_⟩ <;> dsimp only
      · linarith
      · exact hr0
      · ring
  | succ p ih =>
      intro hL
      obtain ⟨hp0, hp1, hps⟩ := ih fun s hs => hL s (Nat.lt_succ_of_lt hs)
      have hlk0 := lk0_nonneg A p (hf p) he (hne p)
      have hlk1 := lk1_nonneg A p (hf p) he (hne p)
      have hu0 : 0 ≤ (stateAfter A p).1 * lk0 A p := mul_nonneg hp0 hlk0
      have hu1 : 0 ≤ (stateAfter A p).2.1 * lk1 A p := mul_nonneg hp1 hlk1
      by_cases hguard : p < A.ndata - 1
      · have hLm : (stateAfter A p).1 * lk0 A p + (stateAfter A p).2.1 * lk1 A p ≠ 0 :=
          hL p (Nat.lt_succ_self p)
        have hx : 0 ≤ A.k * A.rho * A.gendist p :=
          mul_nonneg (mul_nonneg hk hrho) (hgd p)
        have hepos : 0 < Real.exp (-(A.k * A.rho * A.gendist p)) := Real.exp_pos _
        have hele : Real.exp (-(A.k * A.rho * A.gendist p)) ≤ 1 := by
          rw [← Real.exp_zero]
          exact Real.exp_le_exp.mpr (by linarith)
        obtain ⟨hb0, hb1⟩ :=
          filter_predict_bounds ((stateAfter A p).1 * lk0 A p)
            ((stateAfter A p).2.1 * lk1 A p) A.r
            (Real.exp (-(A.k * A.rho * A.gendist p)))
            hu0 hu1 hLm hr0 hr1 hepos hele
        rw [stateAfter_succ, loopStep_true A _ p hguard]
        exact ⟨by dsimp only; linarith, by dsimp only; linarith, by dsimp only; ring⟩
      · rw [stateAfter_succ, loopStep_false A _ p hguard]
        exact ⟨hp0, hp1, hps⟩

/-- C6 counterexample: at exZeroSite the parameters are feasible
(r = 1/2, k = 0), site 0 is non-final (ndata = 2), and the data satisfy
the data model (frequency rows are nonnegative and sum to 1, epsilon = 0,
rho = 1, distances 0), yet the normalised filtering distribution at the
non-final site 0 sums to 0, not 1: the site marginal likelihood there is
exactly zero and the normalisation degenerates. -/
theorem c6_counterexample :
    (0 ≤ exZeroSite.r ∧ exZeroSite.r ≤ 1 ∧ 0 ≤ exZeroSite.k
      ∧ 0 < exZeroSite.ndata - 1)
    ∧ (filterNorm exZeroSite 0).1 + (filterNorm exZeroSite 0).2 ≠ 1 := by
  refine ⟨⟨by norm_num [exZeroSite], by norm_num [exZeroSite],
    by norm_num [exZeroSite], by norm_num [exZeroSite]⟩, ?_⟩
  have hz : (filterNorm exZeroSite 0).1 + (filterNorm exZeroSite 0).2 = 0 := by
    simp [filterNorm, lk0_exZeroSite, lk1_exZeroSite]
  rw [hz]
  norm_num

/-- C6 amended: with feasible parameters and the data-model preconditions
(nonnegative rho, distances, frequencies and epsilon, with
(nstates - 1) epsilon at most 1), and provided every site before t has a
nonzero marginal likelihood, the predictive distribution at site t is
nonnegative and sums to exactly 1 (the complement update makes the sum
exact); if moreover the marginal likelihood at t itself is nonzero, the
normalised filtering distribution at t is nonnegative and sums to 1. -/
theorem c6_distributions_amended (A : HmmArgs)
    (hr0 : 0 ≤ A.r) (hr1 : A.r ≤ 1) (hk : 0 ≤ A.k) (hrho : 0 ≤ A.rho)
    (hgd : ∀ s, 0 ≤ A.gendist s) (hf : ∀ s i, 0 ≤ A.f s i)
    (he : 0 ≤ A.epsilon)
    (hne : ∀ s, ((nstates A s : ℝ) - 1) * A.epsilon ≤ 1)
    (t : ℕ) (hL : ∀ s, s < t → Lmarg A s ≠ 0) :
    (0 ≤ (predictive A t).1 ∧ 0 ≤ (predictive A t).2
      ∧ (predictive A t).1 + (predictive A t).2 = 1)
    ∧ (Lmarg A t ≠ 0 →
        0 ≤ (filterNorm A t).1 ∧ 0 ≤ (filterNorm A t).2
          ∧ (filterNorm A t).1 + (filterNorm A t).2 = 1) := by
  obtain ⟨hp0, hp1, hps⟩ := predictive_invariant A hr0 hr1 hk hrho hgd hf he hne t hL
  refine ⟨⟨hp0, hp1, hps⟩, ?_⟩
  intro hLt
  have hlk0 := lk0_nonneg A t (hf t) he (hne t)
  have hlk1 := lk1_nonneg A t (hf t) he (hne t)
  have hu0 : 0 ≤ (stateAfter A t).1 * lk0 A t := mul_nonneg hp0 hlk0
  have hu1 : 0 ≤ (stateAfter A t).2.1 * lk1 A t := mul_nonneg hp1 hlk1
  rw [Lmarg] at hLt
  have hl : 0 < (stateAfter A t).1 * lk0 A t + (stateAfter A t).2.1 * lk1 A t :=
    (add_nonneg hu0 hu1).lt_of_ne (Ne.symm hLt)
  simp only [filterNorm, Lmarg]
  refine ⟨div_nonneg hu0 hl.le, div_nonneg hu1 hl.le, ?_⟩
  rw [div_add_div_same]
  exact div_self hLt

theorem c6_distributions_amended_witness :
    (0 ≤ (predictive exOutOfRange 0).1 ∧ 0 ≤ (predictive exOutOfRange 0).2
      ∧ (predictive exOutOfRange 0).1 + (predictive exOutOfRange 0).2 = 1)
    ∧ (Lmarg exOutOfRange 0 ≠ 0 →
        0 ≤ (filterNorm exOutOfRange 0).1 ∧ 0 ≤ (filterNorm exOutOfRange 0).2
          ∧ (filterNorm exOutOfRange 0).1 + (filterNorm exOutOfRange 0).2 = 1) :=
  c6_distributions_amended exOutOfRange (by norm_num [exOutOfRange])
    (by norm_num [exOutOfRange]) (by norm_num [exOutOfRange])
    (by norm_num [exOutOfRange])
    (fun s => by norm_num [exOutOfRange])
    (fun s i => by simp only [exOutOfRange]; split <;> norm_num)
    (by norm_num [exOutOfRange])
    (fun s => by rw [nstates_exOutOfRange]; norm_num)
    0 (fun s hs => absurd hs (Nat.not_lt_zero s))

end PanelJudge
